import Mathlib

/-!
Verification of the Nexus GraphRAG indexing/retrieval core
(src/services/llmTools.ts and its caller in src/types.ts).

The JavaScript source is shallowly embedded: numbers that feed `Math.sqrt`
and score comparisons are modelled as real numbers (`ℝ`), machine strings as
`String`, arrays as `List`, `async` functions that can throw as
`Except String`, and the external embedding provider (`fetchEmbedding`,
a network call) as an explicit oracle parameter `EmbedFn`.
JavaScript `Array.prototype.sort` with comparator `(a, b) => b.k - a.k`
is a stable descending sort (stability is guaranteed by the ECMAScript
specification); it is modelled by the stable insertion sort `sortDescBy`.
-/

namespace Nexus

/-- Document status from src/types.ts: `indexing | ready | error`. -/
inductive DocStatus
  | indexing
  | ready
  | error
deriving DecidableEq

/-- RAG configuration (src/types.ts `ragConfig`): only the fields the core reads. -/
structure RagConfig where
  topK : ℕ
  chunkSize : ℕ
  chunkOverlap : ℕ

/-- Application settings restricted to what the modelled core dereferences.
Provider credentials and URLs are consumed by the embedding oracle, which is
abstracted as an `EmbedFn` parameter. -/
structure AppSettings where
  ragConfig : RagConfig

/-- `Document` record from src/types.ts. -/
structure Document where
  id : String
  title : String
  content : String
  createdAt : ℕ
  status : DocStatus

/-- `TextChunk` record from src/types.ts; `vector` is optional. -/
structure TextChunk where
  id : String
  docId : String
  text : String
  vector : Option (List ℝ)

/-- `RetrievalContext` record from src/types.ts. -/
structure RetrievalContext where
  chunkId : String
  docId : String
  docTitle : String
  content : String
  score : ℝ
  relatedEntities : List String

/-- Graph node type tag from src/types.ts: `doc | chunk | entity | query`. -/
inductive NodeType
  | doc
  | chunk
  | entity
  | query
deriving DecidableEq

/-- `GraphNode` from src/types.ts; `data` holds the `{text, fullText}` pair
attached to chunk nodes. -/
structure GraphNode where
  id : String
  type : NodeType
  label : String
  val : ℕ
  data : Option (String × String)
deriving DecidableEq

/-- `GraphLink` from src/types.ts; the link type is kept as its literal string. -/
structure GraphLink where
  source : String
  target : String
  type : String
deriving DecidableEq

/-- `KnowledgeGraph` from src/types.ts. -/
structure KnowledgeGraph where
  nodes : List GraphNode
  links : List GraphLink

/-- The embedding provider capability: `fetchEmbedding` (src/services/llmTools.ts,
lines 50-149) performs a network call and either returns a numeric vector or
throws; it is modelled as an oracle from the prompt text to `Except`. -/
abbrev EmbedFn := String → Except String (List ℝ)

/-! ## Tokenizer (src/services/llmTools.ts, lines 11-31) -/

/-- The `PERSIAN_STOP_WORDS` set (src lines 11-17), as a list with the same
elements; the source `Set` is only used for membership tests. -/
def PERSIAN_STOP_WORDS : List String :=
  ["از", "به", "با", "در", "بر", "برای", "که", "و", "یا", "اگر", "ولی", "اما", "تا", "را", "این", "آن", "یک", "ها", "های",
   "درباره", "مورد", "باید", "شاید", "هم", "نیز", "پس", "چون", "چه", "چرا", "بین", "تحت", "روی", "طی", "همین", "همان", "دیگر",
   "هر", "هیچ", "همه", "جایی", "چیزی", "کسی", "بخش", "قسمت", "عنوان", "مثال", "مانند", "مثل", "توسط", "طریق",
   "است", "هست", "بود", "شد", "نیست", "می", "نمی", "من", "تو", "او", "ما", "شما", "آنها", "استفاده", "صورت", "انجام",
   "دارد", "دارند", "داشت", "خواهند", "کرد", "کنند", "کنید", "بکنید", "میکنند", "میکند", "نماید", "گردد"]

/-- The punctuation characters replaced by a space by the regex on src line 24.
The backquote, apostrophe and brace characters are written via their code
points. -/
def punctChars : List Char :=
  ['.', ',', '/', '#', '!', '$', '%', '^', '&', '*', ';', ':',
   Char.ofNat 123, Char.ofNat 125, '=', '-', '_', Char.ofNat 96, '~', '(', ')', '?',
   '"', Char.ofNat 39, '<', '>', '[', ']', '\\', '|']

/-- The zero-width characters replaced by a space on src line 25:
`[​-‍﻿]`. -/
def isZeroWidth (c : Char) : Bool :=
  (0x200B ≤ c.toNat && c.toNat ≤ 0x200D) || c.toNat == 0xFEFF

/-- The character class of the JavaScript regex `\s` (whitespace), used by
`split(/\s+/)` and `replace(/\s+/g, " ")`. -/
def isJsWhitespace (c : Char) : Bool :=
  c.toNat == 32 || (9 ≤ c.toNat && c.toNat ≤ 13) ||
  c.toNat == 0xA0 || c.toNat == 0x1680 ||
  (0x2000 ≤ c.toNat && c.toNat ≤ 0x200A) ||
  c.toNat == 0x2028 || c.toNat == 0x2029 || c.toNat == 0x202F || c.toNat == 0x205F ||
  c.toNat == 0x3000 || c.toNat == 0xFEFF

/-- Character-wise normalization of src lines 23-25: lowercase, then map the
punctuation characters and the zero-width characters to a space.
`toLowerCase` is modelled by `Char.toLower` (ASCII; the Persian letters and
digit characters relevant to the claims are unaffected by case). -/
def normalizeChar (c : Char) : Char :=
  let lc := c.toLower
  if punctChars.contains lc || isZeroWidth lc then ' ' else lc

mutual

/-- Scanner for `split(/\s+/)` (equivalently `replace(/\s+/g, " ").split(" ")`,
src lines 26-27): `splitWsGo remaining currentToken` accumulates the current
token (reversed); a whitespace character emits it and switches to skipping. -/
def splitWsGo : List Char → List Char → List String
  | [], cur => [String.mk cur.reverse]
  | c :: cs, cur =>
    if isJsWhitespace c then String.mk cur.reverse :: splitWsSkip cs
    else splitWsGo cs (c :: cur)

/-- Skips the rest of a whitespace run, then starts the next token.
A trailing run yields a final empty token, as JavaScript `split` does. -/
def splitWsSkip : List Char → List String
  | [] => [String.mk []]
  | c :: cs => if isJsWhitespace c then splitWsSkip cs else splitWsGo cs [c]

end

/-- JavaScript `text.split(/\s+/)`: splits on maximal whitespace runs;
a leading run produces a leading empty token and a trailing run a trailing
empty token (`"".split(/\s+/)` is `[""]`). -/
def splitWs (text : String) : List String :=
  splitWsGo text.toList []

/-- Accumulator-style value of a digit string in a given base, as JavaScript
`Number` computes it for integer literals. -/
def radixVal (base : ℕ) (dval : Char → ℕ) : ℕ → List Char → ℕ
  | acc, [] => acc
  | acc, c :: cs => radixVal base dval (base * acc + dval c) cs

/-- Decimal value of a digit character. -/
def digitVal (c : Char) : ℕ := c.toNat - 48

/-- Lowercase hexadecimal digit (the tokens reaching `Number` are lowercased). -/
def isHexDigitJs (c : Char) : Bool := c.isDigit || (97 ≤ c.toNat && c.toNat ≤ 102)

/-- Value of a lowercase hexadecimal digit. -/
def hexDigitVal (c : Char) : ℕ := if c.isDigit then digitVal c else c.toNat - 87

/-- Octal digit. -/
def isOctDigit (c : Char) : Bool := 48 ≤ c.toNat && c.toNat ≤ 55

/-- Binary digit. -/
def isBinDigit (c : Char) : Bool := c == '0' || c == '1'

/-- JavaScript `Number` on an (optionally signed) decimal literal body:
digits, an optional fraction, an optional exponent. Returns `none` for `NaN`.
The value `intPart.fracPart × 10^±exp` is assembled as one fraction with
`mkRat` (the digits of `intPart ++ fracPart` over `10^|fracPart|`, scaled by
the exponent), which is the same rational number. -/
def parseDecimal (body : List Char) : Option ℚ :=
  let ip := body.span Char.isDigit
  let fp : List Char × List Char :=
    match ip.2 with
    | '.' :: r => r.span Char.isDigit
    | _ => ([], ip.2)
  if ip.1.isEmpty && fp.1.isEmpty then none
  else
    let mantNum : ℕ := radixVal 10 digitVal 0 (ip.1 ++ fp.1)
    let mantDen : ℕ := 10 ^ fp.1.length
    match fp.2 with
    | [] => some (mkRat (Int.ofNat mantNum) mantDen)
    | 'e' :: r =>
      let ep : Bool × List Char :=
        match r with
        | '+' :: r2 => (false, r2)
        | '-' :: r2 => (true, r2)
        | r2 => (false, r2)
      let ed := ep.2.span Char.isDigit
      if ed.1.isEmpty || !ed.2.isEmpty then none
      else
        let ex := radixVal 10 digitVal 0 ed.1
        if ep.1 then some (mkRat (Int.ofNat mantNum) (mantDen * 10 ^ ex))
        else some (mkRat (Int.ofNat (mantNum * 10 ^ ex)) mantDen)
    | _ => none

/-- JavaScript `Number(t)` (`none` models `NaN`) on the strings that reach the
filter on src line 29: the tokens are lowercase and contain no whitespace, so
leading/trailing-whitespace trimming and the case-sensitive `"Infinity"`
literal (which is never all-lowercase) do not arise and are not modelled. -/
def jsToNumber (t : String) : Option ℚ :=
  match t.toList with
  | [] => some 0
  | '0' :: 'x' :: rest =>
    if !rest.isEmpty && rest.all isHexDigitJs then some (radixVal 16 hexDigitVal 0 rest)
    else none
  | '0' :: 'o' :: rest =>
    if !rest.isEmpty && rest.all isOctDigit then some (radixVal 8 digitVal 0 rest)
    else none
  | '0' :: 'b' :: rest =>
    if !rest.isEmpty && rest.all isBinDigit then some (radixVal 2 digitVal 0 rest)
    else none
  | '+' :: rest => parseDecimal rest
  | '-' :: rest => (parseDecimal rest).map (fun q => -q)
  | cs => parseDecimal cs

/-- The filter predicate `t => !Number(t)` on src line 29: true when `Number(t)`
is `NaN` or `0` (JavaScript falsy values of a number). -/
def jsNumberFalsy (t : String) : Bool :=
  match jsToNumber t with
  | none => true
  | some q => decide (q = 0)

/-- `tokenize` (src lines 20-31): lowercase, normalize punctuation and
zero-width marks to spaces, split on whitespace, drop tokens of length at most
2, drop tokens whose `Number` value is truthy, drop stop words. -/
def tokenize (text : String) : List String :=
  if text = "" then []
  else
    (((splitWs (String.mk (text.toList.map normalizeChar))).filter
        (fun t => decide (2 < t.length))).filter
        (fun t => jsNumberFalsy t)).filter
        (fun t => !PERSIAN_STOP_WORDS.contains t)

/-! ## Chunker (src lines 179-189) -/

/-- The `for` loop of `chunkText`, with explicit fuel; `i` steps by
`size - overlap` (the loop index stays a natural number when
`overlap < size`, the precondition stated in the spec).  Each iteration joins
the window `words.slice(i, i + size)` with spaces, keeps it when its joined
length exceeds 5, and breaks after the window that reaches the last word. -/
def chunkLoop (words : List String) (size overlap : ℕ) : ℕ → ℕ → Option (List String)
  | _, 0 => none
  | i, fuel + 1 =>
    if i < words.length then
      let chunk := String.intercalate " " ((words.drop i).take size)
      let here := if 5 < chunk.length then [chunk] else []
      if words.length ≤ i + size then some here
      else
        match chunkLoop words size overlap (i + (size - overlap)) fuel with
        | some rest => some (here ++ rest)
        | none => none
    else some []

/-- `chunkText` (src lines 179-189). The fuel `words.length + 1` is sufficient
whenever `overlap < size` (proved below); with insufficient fuel —
corresponding to the non-terminating loop the spec excludes by precondition —
the result defaults to the empty list. -/
def chunkText (text : String) (size overlap : ℕ) : List String :=
  let words := splitWs text
  (chunkLoop words size overlap 0 (words.length + 1)).getD []

/-! ## Stable descending sort: model of `Array.prototype.sort((a, b) => b.k - a.k)` -/

/-- Inserts `x` after every element whose key is at least `key x` — the
position a stable descending sort gives it. -/
def insertDescBy {α : Type*} {β : Type*} [LinearOrder β] (key : α → β) (x : α) :
    List α → List α
  | [] => [x]
  | y :: ys => if key y < key x then x :: y :: ys else y :: insertDescBy key x ys

/-- Stable sort, descending by `key`: the model of the JavaScript
`sort((a, b) => b.k - a.k)` calls on src lines 199 and 295 (ECMAScript sort is
stable). -/
def sortDescBy {α : Type*} {β : Type*} [LinearOrder β] (key : α → β) (l : List α) : List α :=
  l.foldl (fun acc x => insertDescBy key x acc) []

/-! ## Entity extraction (src lines 192-202) -/

/-- One step of the frequency count on src line 195: a JavaScript `Map.set`
updates an existing key in place (keeping its insertion position) and appends
a new key. -/
def insertFreq (acc : List (String × ℕ)) (t : String) : List (String × ℕ) :=
  if acc.any (fun p => p.1 == t) then
    acc.map (fun p => if p.1 = t then (p.1, p.2 + 1) else p)
  else acc ++ [(t, 1)]

/-- The frequency map of src lines 194-195 as an association list in key
insertion order, which is how `Map.entries()` iterates it. -/
def freqList (tokens : List String) : List (String × ℕ) :=
  tokens.foldl insertFreq []

/-- `extractEntities` (src lines 192-202): frequency-count the tokens, keep
positive counts, sort descending by count (stable), take 5, project the terms. -/
def extractEntities (text : String) : List String :=
  let tokens := tokenize text
  let freq := freqList tokens
  (((sortDescBy (fun p => p.2) (freq.filter (fun p => decide (0 < p.2)))).take 5).map
    (fun p => p.1))

/-! ## Similarity (src lines 151-175) -/

/-- The dot-product loop of `cosineSimilarity` (src lines 163-167); the source
only runs it on vectors of equal length (the guard on line 154). -/
noncomputable def dotProd : List ℝ → List ℝ → ℝ
  | a :: as, b :: bs => a * b + dotProd as bs
  | _, _ => 0

/-- `Math.sqrt` of the sum of squares (src lines 165-170). -/
noncomputable def magnitude (v : List ℝ) : ℝ := Real.sqrt (dotProd v v)

/-- `cosineSimilarity` (src lines 151-175).  The `Promise` wrapper is dropped
(the body is synchronous and never rejects); absent arguments model the
`!vecA || !vecB` guard. -/
noncomputable def cosineSimilarity (vecA vecB : Option (List ℝ)) : ℝ :=
  match vecA, vecB with
  | some a, some b =>
    if a.length ≠ b.length then 0
    else if magnitude a = 0 ∨ magnitude b = 0 then 0
    else dotProd a b / (magnitude a * magnitude b)
  | _, _ => 0

/-! ## Indexing (src lines 205-231) and its caller (src/types.ts lines 402-424) -/

/-- The per-chunk loop of `processDocument` (src lines 216-229): embed each
chunk text in order; the first failed call aborts the whole computation. -/
def processChunks (embed : EmbedFn) (docId : String) :
    List String → ℕ → Except String (List TextChunk)
  | [], _ => Except.ok []
  | text :: rest, idx =>
    match embed text with
    | Except.error e => Except.error e
    | Except.ok vector =>
      match processChunks embed docId rest (idx + 1) with
      | Except.error e => Except.error e
      | Except.ok tail =>
        Except.ok ({ id := docId ++ "_chk_" ++ toString idx, docId := docId,
                     text := text, vector := some vector } :: tail)

/-- `processDocument` (src lines 205-231): one probe embedding call on the
literal `"test"`, then chunk the content and embed every chunk in order. -/
def processDocument (embed : EmbedFn) (doc : Document) (settings : AppSettings) :
    Except String (List TextChunk) :=
  match embed "test" with
  | Except.error e => Except.error e
  | Except.ok _ =>
    processChunks embed doc.id
      (chunkText doc.content settings.ragConfig.chunkSize settings.ragConfig.chunkOverlap) 0

/-- The status and persisted-chunk outcome of the `try`/`catch` around
`processDocument` in `handleAddDocument` (src/types.ts lines 402-424): on
success the document is stored as `ready` and the chunks are persisted; on any
exception the document is marked `error` and nothing is persisted. -/
def handleAddDocumentOutcome (embed : EmbedFn) (doc : Document) (settings : AppSettings) :
    DocStatus × List TextChunk :=
  match processDocument embed doc settings with
  | Except.ok newChunks => (DocStatus.ready, newChunks)
  | Except.error _ => (DocStatus.error, [])

/-! ## Graph construction (src lines 234-268) -/

/-- The `data` payload of a chunk node (src line 250). -/
def chunkDataOf (chunk : TextChunk) : Option (String × String) :=
  some (chunk.text.take 50 ++ "...", chunk.text)

/-- Entity handling inside the chunk loop (src lines 257-264): push the entity
node only when no node with that id exists yet, always push the `mentions`
link. -/
def addEntityNode (chunkId : String) (st : List GraphNode × List GraphLink) (ent : String) :
    List GraphNode × List GraphLink :=
  let entId := "ent_" ++ ent
  let nodes :=
    if (st.1.find? (fun n => n.id == entId)).isSome then st.1
    else st.1 ++ [{ id := entId, type := NodeType.entity, label := ent, val := 5, data := none }]
  (nodes, st.2 ++ [{ source := chunkId, target := entId, type := "mentions" }])

/-- The body of `chunks.forEach` (src lines 243-265): push the chunk node and
its `contains` link, then process its entities. -/
def addChunkToGraph (st : List GraphNode × List GraphLink) (chunk : TextChunk) :
    List GraphNode × List GraphLink :=
  let nodes := st.1 ++ [{ id := chunk.id, type := NodeType.chunk, label := "Part", val := 10,
                          data := chunkDataOf chunk }]
  let links := st.2 ++ [{ source := chunk.docId, target := chunk.id, type := "contains" }]
  (extractEntities chunk.text).foldl (addEntityNode chunk.id) (nodes, links)

/-- `rebuildGraphFromChunks` (src lines 234-268): one node per document, then
the chunk loop.  The `entityMap` declared on src line 237 is never read or
written in the source and is omitted. -/
def rebuildGraphFromChunks (documents : List Document) (chunks : List TextChunk) :
    KnowledgeGraph :=
  let docNodes := documents.map (fun d =>
    { id := d.id, type := NodeType.doc, label := d.title, val := 20, data := none : GraphNode })
  let st := chunks.foldl addChunkToGraph (docNodes, [])
  { nodes := st.1, links := st.2 }

/-! ## Retrieval (src lines 272-309) -/

/-- `retrieveContext` (src lines 272-309): empty query or no chunks returns
empty immediately; otherwise embed the query, score every chunk (chunks
without a vector score 0), keep scores strictly above 0.25, sort descending
(stable), truncate to `topK`, and build the contexts, falling back to the
literal unknown-document title when the owning document is missing. -/
noncomputable def retrieveContext (embed : EmbedFn) (query : String) (chunks : List TextChunk)
    (settings : AppSettings) (documents : List Document) :
    Except String (List RetrievalContext) :=
  if query = "" ∨ chunks.length = 0 then Except.ok []
  else
    match embed query with
    | Except.error e => Except.error e
    | Except.ok queryVec =>
      let scoredChunks := chunks.map (fun chunk =>
        (chunk, match chunk.vector with
                | some v => cosineSimilarity (some queryVec) (some v)
                | none => (0 : ℝ)))
      let topChunks :=
        (sortDescBy (fun s => s.2)
          (scoredChunks.filter (fun s => decide ((0.25 : ℝ) < s.2)))).take settings.ragConfig.topK
      Except.ok (topChunks.map (fun item =>
        { chunkId := item.1.id
          docId := item.1.docId
          docTitle := match documents.find? (fun d => d.id == item.1.docId) with
                      | some d => d.title
                      | none => "سند ناشناس"
          content := item.1.text
          score := item.2
          relatedEntities := extractEntities item.1.text }))

/-! ## Concrete inputs used by witnesses and counterexamples -/

/-- An embedding oracle that always throws. -/
def embedFail : EmbedFn := fun _ => Except.error "boom"

/-- An embedding oracle whose probe call succeeds and whose per-chunk calls
throw. -/
def embedProbeOnly : EmbedFn :=
  fun t => if t = "test" then Except.ok [] else Except.error "chunkfail"

/-- An embedding oracle that returns the one-dimensional vector `[1]` for
every text. -/
noncomputable def embedOne : EmbedFn := fun _ => Except.ok [(1 : ℝ)]

/-- A concrete document whose content chunks to a single window under
`settings0`. -/
def docD0 : Document := ⟨"d0", "title", "aaaa bbbb cccc", 0, DocStatus.indexing⟩

/-- Concrete settings: `topK = 2`, `chunkSize = 4`, `chunkOverlap = 1`. -/
def settings0 : AppSettings := ⟨⟨2, 4, 1⟩⟩

/-- A chunk with vector `[1]`. -/
noncomputable def chunkA : TextChunk := ⟨"c1", "d1", "hello world", some [(1 : ℝ)]⟩

/-- A second chunk with the same vector `[1]`, so that its score ties with
`chunkA`. -/
noncomputable def chunkB : TextChunk := ⟨"c2", "d1", "hello world", some [(1 : ℝ)]⟩

/-- The retrieval context produced for `chunkA` against an empty document
list. -/
noncomputable def ctxA : RetrievalContext :=
  ⟨"c1", "d1", "سند ناشناس", "hello world", 1, ["hello", "world"]⟩

/-- The retrieval context produced for `chunkB`. -/
noncomputable def ctxB : RetrievalContext :=
  ⟨"c2", "d1", "سند ناشناس", "hello world", 1, ["hello", "world"]⟩

/-- A document list for the graph counterexample: one document with id `d`. -/
def docsCex : List Document := [⟨"d", "t", "", 0, DocStatus.ready⟩]

/-- A chunk list for the graph counterexample: the chunk id collides with the
document id and the chunk's `docId` names no document. -/
def chunksCex : List TextChunk := [⟨"d", "x", "", none⟩]

/-- A well-formed chunk list for the graph witness. -/
def chunksOk : List TextChunk := [⟨"c1", "d", "hello world", none⟩]

/-! # Theorems -/

/-! ## Claim C2 — the chunking example -/

/-- Claim C2 counterexample: `chunkText "a b c d e f" 4 1` is not
`["a b c d", "d e f"]` — the second window `"d e f"` has joined length 5 and
the filter keeps only windows of length strictly greater than 5, so it is
discarded. -/
theorem chunkText_example_cex :
    chunkText "a b c d e f" 4 1 ≠ ["a b c d", "d e f"] := by decide

/-- Claim C2 (amended): `chunkText "a b c d e f" 4 1` returns exactly the
one-element sequence `["a b c d"]`; the second window `"d e f"` is produced
but discarded by the minimum-length rule. -/
theorem chunkText_example_amended : chunkText "a b c d e f" 4 1 = ["a b c d"] := by decide

/-! ## Claim C8 — termination of the chunk scan -/

/-- When `overlap < size`, the chunk loop finishes within `words.length - i`
further iterations: each step either breaks on reaching the end or advances
`i` by the positive stride `size - overlap`. -/
theorem chunkLoop_isSome (words : List String) (size overlap : ℕ) (h : overlap < size) :
    ∀ fuel i, words.length - i < fuel → (chunkLoop words size overlap i fuel).isSome = true := by
  intro fuel
  induction fuel with
  | zero => intro i hi; omega
  | succ fuel ih =>
    intro i hi
    simp only [chunkLoop]
    by_cases hlt : i < words.length
    · rw [if_pos hlt]
      by_cases hend : words.length ≤ i + size
      · rw [if_pos hend]; rfl
      · rw [if_neg hend]
        have hrec : (chunkLoop words size overlap (i + (size - overlap)) fuel).isSome = true :=
          ih (i + (size - overlap)) (by omega)
        rcases Option.isSome_iff_exists.mp hrec with ⟨r, hr⟩
        rw [hr]
        rfl
    · rw [if_neg hlt]; rfl

/-- Claim C8: for `overlap < size` the window scan of `chunkText` terminates —
the loop, run with fuel `words.length + 1`, completes (returns a value rather
than running out of fuel). -/
theorem chunkText_terminates (text : String) (size overlap : ℕ) (h : overlap < size) :
    (chunkLoop (splitWs text) size overlap 0 ((splitWs text).length + 1)).isSome = true :=
  chunkLoop_isSome (splitWs text) size overlap h ((splitWs text).length + 1) 0 (by omega)

/-- Witness for claim C8 at `text = "a b c d e f"`, `size = 4`, `overlap = 1`. -/
theorem chunkText_terminates_witness :
    (1 : ℕ) < 4 ∧
    (chunkLoop (splitWs "a b c d e f") 4 1 0 ((splitWs "a b c d e f").length + 1)).isSome = true :=
  ⟨by omega, chunkText_terminates "a b c d e f" 4 1 (by omega)⟩

/-! ## Claims C5 and C9 — cosine similarity -/

/-- The dot-product loop is symmetric in its two arguments. -/
theorem dotProd_comm (a b : List ℝ) : dotProd a b = dotProd b a := by
  induction a generalizing b with
  | nil => cases b <;> simp [dotProd]
  | cons x xs ih =>
    cases b with
    | nil => simp [dotProd]
    | cons y ys => simp [dotProd, ih, mul_comm]

/-- Claim C5: `cosineSimilarity` is a total function (it never throws), and it
returns 0 whenever either vector is absent, the lengths differ, or either
magnitude is exactly zero. -/
theorem cosineSimilarity_degenerate_zero (vecA vecB : Option (List ℝ))
    (h : vecA = none ∨ vecB = none ∨
      ∃ a b, vecA = some a ∧ vecB = some b ∧
        (a.length ≠ b.length ∨ magnitude a = 0 ∨ magnitude b = 0)) :
    cosineSimilarity vecA vecB = 0 := by
  rcases h with h | h | ⟨a, b, ha, hb, hcase⟩
  · subst h; cases vecB <;> rfl
  · subst h; cases vecA <;> rfl
  · subst ha; subst hb
    rcases hcase with hl | hm | hm
    · simp [cosineSimilarity, hl]
    · by_cases hl : a.length = b.length
      · simp [cosineSimilarity, hl, hm]
      · simp [cosineSimilarity, hl]
    · by_cases hl : a.length = b.length
      · simp [cosineSimilarity, hl, hm]
      · simp [cosineSimilarity, hl]

/-- Witness for claim C5: an absent first vector and a zero vector both
score 0. -/
theorem cosineSimilarity_degenerate_zero_witness :
    cosineSimilarity none (some [(1 : ℝ)]) = 0 ∧
    cosineSimilarity (some [(0 : ℝ)]) (some [(1 : ℝ)]) = 0 :=
  ⟨cosineSimilarity_degenerate_zero none (some [(1 : ℝ)]) (Or.inl rfl),
   cosineSimilarity_degenerate_zero (some [(0 : ℝ)]) (some [(1 : ℝ)])
     (Or.inr (Or.inr ⟨[(0 : ℝ)], [(1 : ℝ)], rfl, rfl,
       Or.inr (Or.inl (by simp [magnitude, dotProd]))⟩))⟩

/-- Claim C9: `cosineSimilarity` is symmetric in its two arguments. -/
theorem cosineSimilarity_symm (vecA vecB : Option (List ℝ)) :
    cosineSimilarity vecA vecB = cosineSimilarity vecB vecA := by
  cases vecA with
  | none => cases vecB <;> rfl
  | some a =>
    cases vecB with
    | none => rfl
    | some b =>
      simp only [cosineSimilarity]
      by_cases hl : a.length = b.length
      · rw [if_neg (not_not_intro hl), if_neg (not_not_intro hl.symm), dotProd_comm]
        by_cases hm : magnitude a = 0 ∨ magnitude b = 0
        · rw [if_pos hm, if_pos (Or.symm hm)]
        · rw [if_neg hm, if_neg (fun hc => hm (Or.symm hc)), mul_comm]
      · rw [if_pos hl, if_pos (Ne.symm hl)]

/-! ## Claim C4 — empty query or empty chunk set -/

/-- Claim C4: an empty query or an empty chunk list yields the empty result
for every embedding oracle — in particular even for one that always throws,
so no embedding call can have been attempted and no error is raised. -/
theorem retrieveContext_empty (embed : EmbedFn) (query : String) (chunks : List TextChunk)
    (settings : AppSettings) (documents : List Document)
    (h : query = "" ∨ chunks = []) :
    retrieveContext embed query chunks settings documents = Except.ok [] := by
  have hc : query = "" ∨ chunks.length = 0 := by
    rcases h with h | h
    · exact Or.inl h
    · exact Or.inr (by simp [h])
  unfold retrieveContext
  rw [if_pos hc]

/-- Witness for claim C4: the always-throwing oracle still yields `ok []` for
an empty query and for an empty chunk list. -/
theorem retrieveContext_empty_witness :
    retrieveContext embedFail "" [chunkA] settings0 [] = Except.ok [] ∧
    retrieveContext embedFail "q" [] settings0 [] = Except.ok [] :=
  ⟨retrieveContext_empty embedFail "" [chunkA] settings0 [] (Or.inl rfl),
   retrieveContext_empty embedFail "q" [] settings0 [] (Or.inr rfl)⟩

/-! ## Claim C3 — total failure of indexing -/

/-- If every text in `l1` embeds successfully and `t` fails with `e`, the
per-chunk loop on `l1 ++ t :: l2` propagates exactly `e` (the first failure),
whatever the starting index. -/
theorem processChunks_error (embed : EmbedFn) (docId : String) (t e : String)
    (l2 : List String) :
    ∀ (l1 : List String) (idx : ℕ), (∀ u ∈ l1, ∃ v, embed u = Except.ok v) →
      embed t = Except.error e →
      processChunks embed docId (l1 ++ t :: l2) idx = Except.error e := by
  intro l1
  induction l1 with
  | nil =>
    intro idx _ ht
    simp only [List.nil_append, processChunks, ht]
  | cons u l1 ih =>
    intro idx hok ht
    rcases hok u (by simp) with ⟨v, hv⟩
    have hrec := ih (idx + 1) (fun x hx => hok x (by simp [hx])) ht
    simp only [List.cons_append, processChunks, hv, List.append_eq, hrec]

/-- Claim C3: if any embedding call made by `processDocument` fails — the
initial probe on `"test"`, or the call for any chunk once all earlier chunk
calls succeeded — then `processDocument` returns exactly that error (so no
chunk list at all is produced), and the caller of src/types.ts lines 402-424
marks the document `error` and persists no chunks. -/
theorem processDocument_failure_total (embed : EmbedFn) (doc : Document)
    (settings : AppSettings) :
    (∀ e, embed "test" = Except.error e →
      processDocument embed doc settings = Except.error e ∧
      handleAddDocumentOutcome embed doc settings = (DocStatus.error, [])) ∧
    (∀ (v0 : List ℝ) (l1 : List String) (t : String) (l2 : List String) (e : String),
      embed "test" = Except.ok v0 →
      chunkText doc.content settings.ragConfig.chunkSize settings.ragConfig.chunkOverlap =
        l1 ++ t :: l2 →
      (∀ u ∈ l1, ∃ v, embed u = Except.ok v) → embed t = Except.error e →
      processDocument embed doc settings = Except.error e ∧
      handleAddDocumentOutcome embed doc settings = (DocStatus.error, [])) := by
  constructor
  · intro e he
    have hp : processDocument embed doc settings = Except.error e := by
      unfold processDocument
      rw [he]
    exact ⟨hp, by unfold handleAddDocumentOutcome; rw [hp]⟩
  · intro v0 l1 t l2 e hprobe hchunks hok ht
    have hp : processDocument embed doc settings = Except.error e := by
      unfold processDocument
      rw [hprobe, hchunks]
      exact processChunks_error embed doc.id t e l2 l1 0 hok ht
    exact ⟨hp, by unfold handleAddDocumentOutcome; rw [hp]⟩

/-- Witness for claim C3: a failing probe aborts with its error, and a failing
first chunk call (after a successful probe) aborts with its error; both leave
the document in the `error` status with nothing persisted. -/
theorem processDocument_failure_total_witness :
    (processDocument embedFail docD0 settings0 = Except.error "boom" ∧
     handleAddDocumentOutcome embedFail docD0 settings0 = (DocStatus.error, [])) ∧
    (processDocument embedProbeOnly docD0 settings0 = Except.error "chunkfail" ∧
     handleAddDocumentOutcome embedProbeOnly docD0 settings0 = (DocStatus.error, [])) :=
  ⟨(processDocument_failure_total embedFail docD0 settings0).1 "boom" rfl,
   (processDocument_failure_total embedProbeOnly docD0 settings0).2 [] []
     "aaaa bbbb cccc" [] "chunkfail" rfl (by decide)
     (by intro u hu; exact absurd hu (List.not_mem_nil u)) rfl⟩

/-! ## Lemmas about the stable descending sort -/

section SortLemmas

variable {α : Type*} {β : Type*} [LinearOrder β] (key : α → β)

theorem mem_insertDescBy (x z : α) (l : List α) :
    z ∈ insertDescBy key x l ↔ z = x ∨ z ∈ l := by
  induction l with
  | nil => simp [insertDescBy]
  | cons y ys ih =>
    by_cases h : key y < key x
    · simp only [insertDescBy, if_pos h, List.mem_cons]
    · simp only [insertDescBy, if_neg h, List.mem_cons, ih]
      tauto

theorem pairwise_insertDescBy (x : α) (l : List α)
    (h : l.Pairwise (fun a b => key b ≤ key a)) :
    (insertDescBy key x l).Pairwise (fun a b => key b ≤ key a) := by
  induction l with
  | nil => simp [insertDescBy]
  | cons y ys ih =>
    rcases List.pairwise_cons.mp h with ⟨hy, hys⟩
    by_cases hlt : key y < key x
    · simp only [insertDescBy, if_pos hlt]
      refine List.pairwise_cons.mpr ⟨?_, h⟩
      intro z hz
      rcases List.mem_cons.mp hz with rfl | hz
      · exact le_of_lt hlt
      · exact le_trans (hy z hz) (le_of_lt hlt)
    · simp only [insertDescBy, if_neg hlt]
      refine List.pairwise_cons.mpr ⟨?_, ih hys⟩
      intro z hz
      rcases (mem_insertDescBy key x z ys).mp hz with rfl | hz
      · exact le_of_not_lt hlt
      · exact hy z hz

theorem insertDescBy_perm (x : α) (l : List α) : (insertDescBy key x l).Perm (x :: l) := by
  induction l with
  | nil => simp [insertDescBy]
  | cons y ys ih =>
    by_cases hlt : key y < key x
    · simp [insertDescBy, hlt]
    · simp only [insertDescBy, if_neg hlt]
      exact ((List.perm_cons y).mpr ih).trans (List.Perm.swap x y ys)

theorem foldl_insertDescBy_perm (l : List α) :
    ∀ acc : List α, (l.foldl (fun acc x => insertDescBy key x acc) acc).Perm (acc ++ l) := by
  induction l with
  | nil => intro acc; simp
  | cons x xs ih =>
    intro acc
    rw [List.foldl_cons]
    refine (ih (insertDescBy key x acc)).trans ?_
    refine (List.Perm.append_right xs (insertDescBy_perm key x acc)).trans ?_
    exact List.perm_middle.symm

theorem sortDescBy_perm (l : List α) : (sortDescBy key l).Perm l := by
  simpa [sortDescBy] using foldl_insertDescBy_perm key l []

theorem sortDescBy_pairwise (l : List α) :
    (sortDescBy key l).Pairwise (fun a b => key b ≤ key a) := by
  have main : ∀ (l acc : List α), acc.Pairwise (fun a b => key b ≤ key a) →
      (l.foldl (fun acc x => insertDescBy key x acc) acc).Pairwise
        (fun a b => key b ≤ key a) := by
    intro l
    induction l with
    | nil => intro acc h; simpa using h
    | cons x xs ih =>
      intro acc h
      rw [List.foldl_cons]
      exact ih _ (pairwise_insertDescBy key x acc h)
  simpa [sortDescBy] using main l [] List.Pairwise.nil

theorem filter_insertDescBy (x : α) (v : β) (l : List α)
    (h : l.Pairwise (fun a b => key b ≤ key a)) :
    (insertDescBy key x l).filter (fun z => decide (key z = v)) =
      if key x = v then l.filter (fun z => decide (key z = v)) ++ [x]
      else l.filter (fun z => decide (key z = v)) := by
  induction l with
  | nil =>
    by_cases hx : key x = v
    · simp [insertDescBy, List.filter, hx]
    · simp [insertDescBy, List.filter, hx]
  | cons y ys ih =>
    rcases List.pairwise_cons.mp h with ⟨hy, hys⟩
    by_cases hlt : key y < key x
    · simp only [insertDescBy, if_pos hlt]
      by_cases hx : key x = v
      · have hnone : (y :: ys).filter (fun z => decide (key z = v)) = [] := by
          rw [List.filter_eq_nil_iff]
          intro z hz
          have hzy : key z ≤ key y := by
            rcases List.mem_cons.mp hz with rfl | hz
            · exact le_refl _
            · exact hy z hz
          have hzv : key z < v := lt_of_le_of_lt hzy (hx ▸ hlt)
          simp [ne_of_lt hzv]
        rw [if_pos hx, List.filter_cons, hnone]
        simp [hx]
      · rw [if_neg hx, List.filter_cons]
        simp [hx]
    · simp only [insertDescBy, if_neg hlt]
      rw [List.filter_cons, ih hys]
      by_cases hyv : key y = v
      · by_cases hx : key x = v <;> simp [hyv, hx, List.filter_cons]
      · by_cases hx : key x = v <;> simp [hyv, hx, List.filter_cons]

theorem sortDescBy_filter_key (l : List α) (v : β) :
    (sortDescBy key l).filter (fun z => decide (key z = v)) =
      l.filter (fun z => decide (key z = v)) := by
  have main : ∀ (l acc : List α), acc.Pairwise (fun a b => key b ≤ key a) →
      (l.foldl (fun acc x => insertDescBy key x acc) acc).filter (fun z => decide (key z = v)) =
        acc.filter (fun z => decide (key z = v)) ++
          l.filter (fun z => decide (key z = v)) := by
    intro l
    induction l with
    | nil => intro acc h; simp
    | cons x xs ih =>
      intro acc h
      rw [List.foldl_cons, ih _ (pairwise_insertDescBy key x acc h),
        filter_insertDescBy key x v acc h]
      by_cases hx : key x = v
      · rw [if_pos hx, List.filter_cons]
        simp [hx]
      · rw [if_neg hx, List.filter_cons]
        simp [hx]
  simpa [sortDescBy] using main l [] List.Pairwise.nil

theorem sublist_pair_of_sortDescBy (l : List α) (p q : α)
    (hs : [p, q].Sublist (sortDescBy key l)) (hk : key p = key q) :
    [p, q].Sublist l := by
  have hfil : [p, q].filter (fun z => decide (key z = key q)) = [p, q] := by
    simp [List.filter, hk]
  have h1 := List.Sublist.filter (fun z => decide (key z = key q)) hs
  rw [hfil, sortDescBy_filter_key key l (key q)] at h1
  exact h1.trans (List.filter_sublist l)

end SortLemmas

/-! ## Claim C1 — retrieval ordering, truncation and threshold -/

/-- Claim C1 (amended): every successful `retrieveContext` result is sorted in
non-increasing (descending, ties allowed) score order, has length at most
`topK`, and contains no item with score at most 0.25. -/
theorem retrieveContext_sorted_topK_threshold (embed : EmbedFn) (query : String)
    (chunks : List TextChunk) (settings : AppSettings) (documents : List Document)
    (r : List RetrievalContext)
    (h : retrieveContext embed query chunks settings documents = Except.ok r) :
    r.Pairwise (fun x y => y.score ≤ x.score) ∧
    r.length ≤ settings.ragConfig.topK ∧
    ∀ x ∈ r, (0.25 : ℝ) < x.score := by
  unfold retrieveContext at h
  by_cases hc : query = "" ∨ chunks.length = 0
  · rw [if_pos hc] at h
    injection h with h
    subst h
    exact ⟨List.Pairwise.nil, by simp, by simp⟩
  · rw [if_neg hc] at h
    cases hqv : embed query with
    | error e => rw [hqv] at h; cases h
    | ok queryVec =>
      rw [hqv] at h
      injection h with h
      subst h
      refine ⟨?_, ?_, ?_⟩
      · have hsorted := sortDescBy_pairwise (fun s : TextChunk × ℝ => s.2)
          (List.filter (fun s => decide ((0.25 : ℝ) < s.2))
            (chunks.map (fun chunk =>
              (chunk, match chunk.vector with
                      | some v => cosineSimilarity (some queryVec) (some v)
                      | none => (0 : ℝ)))))
        have htake := List.Pairwise.sublist
          (List.take_sublist settings.ragConfig.topK _) hsorted
        exact List.Pairwise.map _ (fun a b hab => hab) htake
      · simp only [List.length_map, List.length_take]
        exact inf_le_left
      · intro x hx
        rcases List.mem_map.mp hx with ⟨item, hitem, rfl⟩
        have h1 := (List.take_sublist settings.ragConfig.topK _).subset hitem
        have h2 := ((sortDescBy_perm (fun s : TextChunk × ℝ => s.2) _).mem_iff).mp h1
        have h3 := (List.mem_filter.mp h2).2
        exact of_decide_eq_true h3

/-- Evaluation of `retrieveContext` on the tied two-chunk input used in the
claim C1 counterexample and witness. -/
theorem retrieveContext_two_ties_eval :
    retrieveContext embedOne "q" [chunkA, chunkB] settings0 [] =
      Except.ok [ctxA, ctxB] := by
  have h25 : (decide ((0.25 : ℝ) < 1)) = true := decide_eq_true (by norm_num)
  have hnlt : ¬ ((1 : ℝ) < 1) := lt_irrefl 1
  have hent : extractEntities "hello world" = ["hello", "world"] := by decide
  have hcos : cosineSimilarity (some [(1 : ℝ)]) (some [(1 : ℝ)]) = 1 := by
    have hd : dotProd [(1 : ℝ)] [(1 : ℝ)] = 1 := by
      simp [dotProd]
    have hm : magnitude [(1 : ℝ)] = 1 := by
      unfold magnitude
      rw [hd, Real.sqrt_one]
    simp only [cosineSimilarity, hm, hd]
    norm_num
  unfold retrieveContext
  rw [if_neg (by simp)]
  simp only [embedOne, chunkA, chunkB, settings0, List.map, hcos, List.filter, h25,
    sortDescBy, List.foldl, insertDescBy, hnlt, if_false, List.take, List.find?, hent,
    ctxA, ctxB]

/-- Claim C1 counterexample: two chunks with identical vectors tie at score 1,
so the returned sequence is not sorted strictly descending by score. -/
theorem retrieveContext_strict_descending_cex :
    retrieveContext embedOne "q" [chunkA, chunkB] settings0 [] = Except.ok [ctxA, ctxB] ∧
    ¬ List.Pairwise (fun x y : RetrievalContext => y.score < x.score) [ctxA, ctxB] := by
  refine ⟨retrieveContext_two_ties_eval, ?_⟩
  intro hp
  have h := List.rel_of_pairwise_cons hp (by simp : ctxB ∈ [ctxB])
  simp only [ctxA, ctxB] at h
  exact lt_irrefl 1 h

/-- Witness for claim C1 at the concrete tied retrieval. -/
theorem retrieveContext_sorted_topK_threshold_witness :
    List.Pairwise (fun x y : RetrievalContext => y.score ≤ x.score) [ctxA, ctxB] ∧
    ([ctxA, ctxB] : List RetrievalContext).length ≤ settings0.ragConfig.topK ∧
    ∀ x ∈ [ctxA, ctxB], (0.25 : ℝ) < x.score :=
  retrieveContext_sorted_topK_threshold embedOne "q" [chunkA, chunkB] settings0 []
    [ctxA, ctxB] retrieveContext_two_ties_eval

/-! ## Claim C7 — numeric tokens -/

/-- The accumulator value of a decimal digit scan is zero exactly when the
accumulator and every digit value are zero. -/
theorem radixVal_ten_eq_zero (ds : List Char) :
    ∀ acc : ℕ, (radixVal 10 digitVal acc ds = 0 ↔ acc = 0 ∧ ∀ c ∈ ds, digitVal c = 0) := by
  induction ds with
  | nil => intro acc; simp [radixVal]
  | cons c cs ih =>
    intro acc
    rw [radixVal, ih]
    constructor
    · rintro ⟨h10, hall⟩
      refine ⟨by omega, ?_⟩
      intro x hx
      rcases List.mem_cons.mp hx with rfl | hx
      · omega
      · exact hall x hx
    · rintro ⟨rfl, hall⟩
      have hc : digitVal c = 0 := hall c (List.mem_cons_self c cs)
      exact ⟨by omega, fun x hx => hall x (List.mem_cons_of_mem c hx)⟩

/-- A digit character with digit value 0 is the character `0`. -/
theorem digitVal_zero_char (c : Char) (hd : c.isDigit = true) (hz : digitVal c = 0) :
    c = '0' := by
  have hb : 48 ≤ c.toNat ∧ c.toNat ≤ 57 := by
    simp only [Char.isDigit, Bool.and_eq_true, decide_eq_true_eq, ge_iff_le] at hd
    rcases hd with ⟨h1, h2⟩
    rw [UInt32.le_def, BitVec.le_def] at h1 h2
    exact ⟨h1, h2⟩
  have h48 : c.toNat = 48 := by
    unfold digitVal at hz
    omega
  refine Char.ext (UInt32.ext ?_)
  show c.toNat = ('0' : Char).val.toNat
  rw [h48]
  rfl

/-- On an all-digit body, the decimal parser returns the decimal value of the
digits (as an integer rational). -/
theorem parseDecimal_all_digits (cs : List Char) (hne : cs ≠ [])
    (hd : ∀ c ∈ cs, c.isDigit = true) :
    parseDecimal cs = some (mkRat (Int.ofNat (radixVal 10 digitVal 0 cs)) 1) := by
  have hemp : cs.isEmpty = false := by
    cases cs with
    | nil => exact absurd rfl hne
    | cons c cs' => rfl
  simp only [parseDecimal, List.span_eq_take_drop, List.takeWhile_eq_self_iff.mpr hd,
    List.dropWhile_eq_nil_iff.mpr hd, hemp, List.isEmpty_nil, Bool.and_true, Bool.and_false,
    Bool.false_eq_true, if_false, List.append_nil, List.length_nil, pow_zero]

/-- `Number(t)` on a nonempty all-digit token is its decimal value. -/
theorem jsToNumber_all_digits (t : String) (hne : t.toList ≠ [])
    (hd : ∀ c ∈ t.toList, c.isDigit = true) :
    jsToNumber t = some (mkRat (Int.ofNat (radixVal 10 digitVal 0 t.toList)) 1) := by
  unfold jsToNumber
  split
  · exact absurd (by assumption) hne
  · rename_i rest heq
    have hx : 'x' ∈ t.toList := by rw [heq]; simp
    have := hd 'x' hx
    simp at this
  · rename_i rest heq
    have hx : 'o' ∈ t.toList := by rw [heq]; simp
    have := hd 'o' hx
    simp at this
  · rename_i rest heq
    have hx : 'b' ∈ t.toList := by rw [heq]; simp
    have := hd 'b' hx
    simp at this
  · rename_i rest heq
    have hx : '+' ∈ t.toList := by rw [heq]; simp
    have := hd '+' hx
    simp at this
  · rename_i rest heq
    have hx : '-' ∈ t.toList := by rw [heq]; simp
    have := hd '-' hx
    simp at this
  · exact parseDecimal_all_digits t.toList hne hd

/-- Every token returned by `tokenize` passed the `!Number(t)` filter. -/
theorem mem_tokenize_falsy (text t : String) (ht : t ∈ tokenize text) :
    jsNumberFalsy t = true := by
  unfold tokenize at ht
  by_cases h0 : text = ""
  · rw [if_pos h0] at ht
    exact absurd ht (List.not_mem_nil t)
  · rw [if_neg h0] at ht
    exact (List.mem_filter.mp (List.mem_filter.mp ht).1).2

/-- Claim C7 counterexample: the purely numeric token `"000"` is returned by
`tokenize` — `Number("000")` is `0`, which is falsy, so the `!Number(t)`
filter keeps it. -/
theorem tokenize_numeric_cex :
    "000" ∈ tokenize "000" ∧ ("000").toList ≠ [] ∧
    ∀ c ∈ ("000").toList, c.isDigit = true := by
  refine ⟨by decide, by decide, by decide⟩

/-- Claim C7 (amended): a purely numeric token survives `tokenize` only when
its decimal value is zero; every purely numeric returned token consists solely
of the digit `0` (so purely numeric tokens with nonzero value are dropped, but
zero-valued ones such as `"000"` are kept). -/
theorem tokenize_numeric_zero_only (text t : String) (ht : t ∈ tokenize text)
    (hne : t.toList ≠ []) (hd : ∀ c ∈ t.toList, c.isDigit = true) :
    ∀ c ∈ t.toList, c = '0' := by
  have hf := mem_tokenize_falsy text t ht
  simp only [jsNumberFalsy, jsToNumber_all_digits t hne hd] at hf
  rw [decide_eq_true_eq, Rat.mkRat_eq_zero one_ne_zero] at hf
  have hf0 : radixVal 10 digitVal 0 t.toList = 0 := Int.ofNat.inj hf
  have hz := (radixVal_ten_eq_zero t.toList 0).mp hf0
  intro c hc
  exact digitVal_zero_char c (hd c hc) (hz.2 c hc)

/-- Witness for claim C7 on the text `"000"`. -/
theorem tokenize_numeric_zero_only_witness :
    "000" ∈ tokenize "000" ∧ ∀ c ∈ ("000").toList, c = '0' :=
  ⟨by decide,
   tokenize_numeric_zero_only "000" "000" (by decide) (by decide) (by decide)⟩

/-! ## Claim C10 — entity extraction order -/

theorem indexOf_append_left {a : String} {l₁ l₂ : List String} (h : a ∈ l₁) :
    (l₁ ++ l₂).indexOf a = l₁.indexOf a := by
  induction l₁ with
  | nil => exact absurd h (List.not_mem_nil a)
  | cons x xs ih =>
    by_cases hx : x = a
    · simp [List.indexOf_cons, hx]
    · have h' : a ∈ xs := by
        rcases List.mem_cons.mp h with rfl | h'
        · exact absurd rfl hx
        · exact h'
      simp [List.indexOf_cons, beq_eq_false_iff_ne.mpr hx, ih h']

theorem indexOf_append_new {a : String} {l : List String} (h : a ∉ l) :
    (l ++ [a]).indexOf a = l.length := by
  induction l with
  | nil => simp [List.indexOf_cons]
  | cons x xs ih =>
    have hx : (x == a) = false :=
      beq_eq_false_iff_ne.mpr (fun he => h (List.mem_cons.mpr (Or.inl he.symm)))
    simp [List.indexOf_cons, hx, ih (fun hm => h (List.mem_cons_of_mem x hm))]

/-- Invariant of the frequency fold: for a processed prefix `done`, the
accumulator holds exactly the keys of `done` with their counts in `done`,
without duplicates, ordered by first occurrence in `done`. -/
theorem freqList_foldl_inv (rest : List String) :
    ∀ (done : List String) (acc : List (String × ℕ)),
    (∀ p ∈ acc, p.1 ∈ done ∧ p.2 = done.count p.1) →
    (∀ k ∈ done, k ∈ acc.map Prod.fst) →
    (acc.map Prod.fst).Nodup →
    acc.Pairwise (fun p q => done.indexOf p.1 < done.indexOf q.1) →
    (∀ p ∈ List.foldl insertFreq acc rest,
        p.1 ∈ done ++ rest ∧ p.2 = (done ++ rest).count p.1) ∧
    (∀ k ∈ done ++ rest, k ∈ (List.foldl insertFreq acc rest).map Prod.fst) ∧
    ((List.foldl insertFreq acc rest).map Prod.fst).Nodup ∧
    (List.foldl insertFreq acc rest).Pairwise
      (fun p q => (done ++ rest).indexOf p.1 < (done ++ rest).indexOf q.1) := by
  induction rest with
  | nil =>
    intro done acc h1 h2 h3 h4
    simp only [List.foldl_nil, List.append_nil]
    exact ⟨h1, h2, h3, h4⟩
  | cons t ts ih =>
    intro done acc h1 h2 h3 h4
    rw [List.foldl_cons]
    by_cases hmem : acc.any (fun p => p.1 == t) = true
    · -- the key `t` is already present: bump its count in place
      have hins : insertFreq acc t =
          acc.map (fun p => if p.1 = t then (p.1, p.2 + 1) else p) := by
        rw [insertFreq, if_pos hmem]
      have hbfst : ∀ p : String × ℕ, ((if p.1 = t then (p.1, p.2 + 1) else p) : String × ℕ).1
          = p.1 := by
        intro p
        by_cases hp : p.1 = t <;> simp [hp]
      have hkeys : (insertFreq acc t).map Prod.fst = acc.map Prod.fst := by
        rw [hins, List.map_map]
        exact List.map_congr_left (fun p _ => hbfst p)
      have htk : t ∈ acc.map Prod.fst := by
        rcases List.any_eq_true.mp hmem with ⟨p, hp, hpt⟩
        exact List.mem_map.mpr ⟨p, hp, eq_of_beq hpt⟩
      have htdone : t ∈ done := by
        rcases List.mem_map.mp htk with ⟨p, hp, hpt⟩
        exact hpt ▸ (h1 p hp).1
      have step1 : ∀ p ∈ insertFreq acc t, p.1 ∈ done ++ [t] ∧
          p.2 = (done ++ [t]).count p.1 := by
        intro p hp
        rw [hins] at hp
        rcases List.mem_map.mp hp with ⟨p0, hp0, rfl⟩
        rcases h1 p0 hp0 with ⟨hk, hv⟩
        by_cases hpt : p0.1 = t
        · simp only [if_pos hpt]
          refine ⟨List.mem_append_left _ hk, ?_⟩
          rw [List.count_append, List.count_singleton]
          have : (t == p0.1) = true := beq_iff_eq.mpr hpt.symm
          rw [this, if_pos rfl, hv, hpt]
        · simp only [if_neg hpt]
          refine ⟨List.mem_append_left _ hk, ?_⟩
          rw [List.count_append, List.count_singleton]
          have : (t == p0.1) = false := beq_eq_false_iff_ne.mpr (fun he => hpt he.symm)
          rw [this]
          simp [hv]
      have step2 : ∀ k ∈ done ++ [t], k ∈ (insertFreq acc t).map Prod.fst := by
        intro k hk
        rw [hkeys]
        rcases List.mem_append.mp hk with hk | hk
        · exact h2 k hk
        · rcases List.mem_singleton.mp hk with rfl
          exact htk
      have step3 : ((insertFreq acc t).map Prod.fst).Nodup := by
        rw [hkeys]; exact h3
      have step4 : (insertFreq acc t).Pairwise
          (fun p q => (done ++ [t]).indexOf p.1 < (done ++ [t]).indexOf q.1) := by
        rw [hins, List.pairwise_map]
        refine List.Pairwise.imp_of_mem ?_ h4
        intro p q hp hq hrel
        rw [hbfst p, hbfst q, indexOf_append_left (h1 p hp).1,
          indexOf_append_left (h1 q hq).1]
        exact hrel
      have key := ih (done ++ [t]) (insertFreq acc t) step1 step2 step3 step4
      rw [List.append_assoc, List.singleton_append] at key
      exact key
    · -- the key `t` is new: append it with count 1
      have hins : insertFreq acc t = acc ++ [(t, 1)] := by
        rw [insertFreq, if_neg hmem]
      have hall : ∀ p ∈ acc, p.1 ≠ t := by
        intro p hp he
        exact hmem (List.any_eq_true.mpr ⟨p, hp, beq_iff_eq.mpr he⟩)
      have htnotk : t ∉ acc.map Prod.fst := by
        intro hk
        rcases List.mem_map.mp hk with ⟨p, hp, hpt⟩
        exact hall p hp hpt
      have htdone : t ∉ done := fun hk => htnotk (h2 t hk)
      have hkeys : (insertFreq acc t).map Prod.fst = acc.map Prod.fst ++ [t] := by
        rw [hins, List.map_append]
        rfl
      have step1 : ∀ p ∈ insertFreq acc t, p.1 ∈ done ++ [t] ∧
          p.2 = (done ++ [t]).count p.1 := by
        intro p hp
        rw [hins] at hp
        rcases List.mem_append.mp hp with hp | hp
        · rcases h1 p hp with ⟨hk, hv⟩
          refine ⟨List.mem_append_left _ hk, ?_⟩
          rw [List.count_append, List.count_singleton]
          have hne : (t == p.1) = false :=
            beq_eq_false_iff_ne.mpr (fun he => htdone (he ▸ hk))
          rw [hne]
          simp [hv]
        · rcases List.mem_singleton.mp hp with rfl
          refine ⟨List.mem_append_right _ (by simp), ?_⟩
          rw [List.count_append, List.count_singleton]
          rw [List.count_eq_zero.mpr htdone]
          simp
      have step2 : ∀ k ∈ done ++ [t], k ∈ (insertFreq acc t).map Prod.fst := by
        intro k hk
        rw [hkeys]
        rcases List.mem_append.mp hk with hk | hk
        · exact List.mem_append_left _ (h2 k hk)
        · exact List.mem_append_right _ hk
      have step3 : ((insertFreq acc t).map Prod.fst).Nodup := by
        rw [hkeys, List.nodup_append]
        exact ⟨h3, List.nodup_singleton t,
          fun a ha hb => (List.mem_singleton.mp hb ▸ htnotk) (List.mem_singleton.mp hb ▸ ha)⟩
      have step4 : (insertFreq acc t).Pairwise
          (fun p q => (done ++ [t]).indexOf p.1 < (done ++ [t]).indexOf q.1) := by
        rw [hins, List.pairwise_append]
        refine ⟨?_, List.pairwise_singleton _ _, ?_⟩
        · refine List.Pairwise.imp_of_mem ?_ h4
          intro p q hp hq hrel
          rw [indexOf_append_left (h1 p hp).1, indexOf_append_left (h1 q hq).1]
          exact hrel
        · intro p hp b hb
          rcases List.mem_singleton.mp hb with rfl
          rw [indexOf_append_left (h1 p hp).1]
          show done.indexOf p.1 < (done ++ [t]).indexOf t
          rw [indexOf_append_new htdone]
          exact List.indexOf_lt_length.mpr (h1 p hp).1
      have key := ih (done ++ [t]) (insertFreq acc t) step1 step2 step3 step4
      rw [List.append_assoc, List.singleton_append] at key
      exact key

/-- The frequency list records, per key of the token list, its count, with
distinct keys ordered by first occurrence. -/
theorem freqList_spec (tokens : List String) :
    (∀ p ∈ freqList tokens, p.1 ∈ tokens ∧ p.2 = tokens.count p.1) ∧
    ((freqList tokens).map Prod.fst).Nodup ∧
    (freqList tokens).Pairwise (fun p q => tokens.indexOf p.1 < tokens.indexOf q.1) := by
  have h := freqList_foldl_inv tokens [] [] (by simp) (by simp) (by simp) (by simp)
  simp only [List.nil_append] at h
  exact ⟨h.1, h.2.2.1, h.2.2.2⟩

/-- Claim C10: `extractEntities` returns at most 5 pairwise-distinct tokens,
and tokens of equal frequency appear in order of their first occurrence in
the tokenized text (the frequency map lists keys in first-occurrence order
and the descending sort is stable). -/
theorem extractEntities_stable_top5 (text : String) :
    (extractEntities text).length ≤ 5 ∧
    (extractEntities text).Nodup ∧
    ∀ s t : String, [s, t].Sublist (extractEntities text) →
      (tokenize text).count s = (tokenize text).count t →
      (tokenize text).indexOf s < (tokenize text).indexOf t := by
  obtain ⟨hval, hnk, hord⟩ := freqList_spec (tokenize text)
  have hfil : (freqList (tokenize text)).filter (fun p => decide (0 < p.2)) =
      freqList (tokenize text) := by
    rw [List.filter_eq_self]
    intro p hp
    rw [decide_eq_true_eq, (hval p hp).2]
    exact List.count_pos_iff.mpr (hval p hp).1
  have hperm := sortDescBy_perm (fun p : String × ℕ => p.2) (freqList (tokenize text))
  refine ⟨?_, ?_, ?_⟩
  · simp only [extractEntities, hfil, List.length_map, List.length_take]
    exact inf_le_left
  · simp only [extractEntities, hfil]
    have hmap : ((sortDescBy (fun p : String × ℕ => p.2)
        (freqList (tokenize text))).map Prod.fst).Nodup :=
      ((hperm.map Prod.fst).symm).nodup hnk
    exact ((List.take_sublist 5 _).map Prod.fst).nodup hmap
  · intro s t hs hcnt
    simp only [extractEntities, hfil] at hs
    rcases List.sublist_map_iff.mp hs with ⟨l', hl', heq⟩
    obtain ⟨p, q, rfl, hps, hqt⟩ : ∃ p q, l' = [p, q] ∧ p.1 = s ∧ q.1 = t := by
      match l', heq with
      | [p, q], heq =>
        simp at heq
        exact ⟨p, q, rfl, heq.1.symm, heq.2.symm⟩
    have hsub2 : [p, q].Sublist (sortDescBy (fun p : String × ℕ => p.2)
        (freqList (tokenize text))) :=
      hl'.trans (List.take_sublist 5 _)
    have hpmem : p ∈ freqList (tokenize text) := (hperm.mem_iff).mp (hsub2.subset (by simp))
    have hqmem : q ∈ freqList (tokenize text) := (hperm.mem_iff).mp (hsub2.subset (by simp))
    have hkey : p.2 = q.2 := by
      rw [(hval p hpmem).2, (hval q hqmem).2, hps, hqt, hcnt]
    have hsub3 : [p, q].Sublist (freqList (tokenize text)) :=
      sublist_pair_of_sortDescBy (fun p : String × ℕ => p.2) _ p q hsub2 hkey
    have hrel := List.rel_of_pairwise_cons (List.Pairwise.sublist hsub3 hord)
      (show q ∈ [q] from List.mem_singleton.mpr rfl)
    rw [hps, hqt] at hrel
    exact hrel

/-- Witness for claim C10 on `"bbb aaa bbb aaa ccc"`: the tied tokens `bbb`
and `aaa` come out in first-occurrence order. -/
theorem extractEntities_stable_top5_witness :
    (extractEntities "bbb aaa bbb aaa ccc").length ≤ 5 ∧
    (extractEntities "bbb aaa bbb aaa ccc").Nodup ∧
    (tokenize "bbb aaa bbb aaa ccc").indexOf "bbb" <
      (tokenize "bbb aaa bbb aaa ccc").indexOf "aaa" := by
  obtain ⟨h1, h2, h3⟩ := extractEntities_stable_top5 "bbb aaa bbb aaa ccc"
  exact ⟨h1, h2, h3 "bbb" "aaa" (by decide) (by decide)⟩

/-! ## Claim C6 — graph node uniqueness and link validity -/

theorem find?_isSome_mem {l : List GraphNode} {i : String}
    (h : (l.find? (fun n => n.id == i)).isSome = true) : i ∈ l.map (fun n => n.id) := by
  rcases Option.isSome_iff_exists.mp h with ⟨n, hn⟩
  have hp : (n.id == i) = true := @List.find?_some GraphNode (fun n => n.id == i) n l hn
  exact List.mem_map.mpr ⟨n, List.mem_of_find?_eq_some hn, eq_of_beq hp⟩

theorem find?_none_not_mem {l : List GraphNode} {i : String}
    (h : ¬ (l.find? (fun n => n.id == i)).isSome = true) : i ∉ l.map (fun n => n.id) := by
  intro hmem
  rcases List.mem_map.mp hmem with ⟨n, hn, hni⟩
  exact h (List.find?_isSome.mpr ⟨n, hn, beq_iff_eq.mpr hni⟩)

/-- Invariant of the entity loop (src lines 257-264): the node-id list stays
duplicate-free, all links keep referencing existing nodes, the current chunk
node and all document nodes stay present, and ids of not-yet-processed chunks
stay absent (entity nodes all carry an `ent_` id). -/
theorem addEntity_foldl_inv (chunkId : String) (documents : List Document)
    (futureIds : List String)
    (hfut : ∀ cid ∈ futureIds, ∀ e : String, cid ≠ "ent_" ++ e) :
    ∀ (ents : List String) (st : List GraphNode × List GraphLink),
    (st.1.map (fun n => n.id)).Nodup →
    (∀ l ∈ st.2, l.source ∈ st.1.map (fun n => n.id) ∧
      l.target ∈ st.1.map (fun n => n.id)) →
    chunkId ∈ st.1.map (fun n => n.id) →
    (∀ d ∈ documents, d.id ∈ st.1.map (fun n => n.id)) →
    (∀ cid ∈ futureIds, cid ∉ st.1.map (fun n => n.id)) →
    (((ents.foldl (addEntityNode chunkId) st).1.map (fun n => n.id)).Nodup ∧
     (∀ l ∈ (ents.foldl (addEntityNode chunkId) st).2,
        l.source ∈ (ents.foldl (addEntityNode chunkId) st).1.map (fun n => n.id) ∧
        l.target ∈ (ents.foldl (addEntityNode chunkId) st).1.map (fun n => n.id)) ∧
     chunkId ∈ (ents.foldl (addEntityNode chunkId) st).1.map (fun n => n.id) ∧
     (∀ d ∈ documents, d.id ∈ (ents.foldl (addEntityNode chunkId) st).1.map (fun n => n.id)) ∧
     (∀ cid ∈ futureIds, cid ∉ (ents.foldl (addEntityNode chunkId) st).1.map (fun n => n.id))) := by
  intro ents
  induction ents with
  | nil =>
    intro st h1 h2 h3 h4 h5
    exact ⟨h1, h2, h3, h4, h5⟩
  | cons e es ih =>
    intro st h1 h2 h3 h4 h5
    rw [List.foldl_cons]
    by_cases hfound : ((st.1.find? (fun n => n.id == ("ent_" ++ e))).isSome = true)
    · -- an entity node with this id already exists: only the link is added
      have hnodes : (addEntityNode chunkId st e).1 = st.1 := by
        show (if (st.1.find? (fun n => n.id == ("ent_" ++ e))).isSome then st.1
              else st.1 ++ [⟨"ent_" ++ e, NodeType.entity, e, 5, none⟩]) = st.1
        rw [if_pos hfound]
      have hlinks : (addEntityNode chunkId st e).2 =
          st.2 ++ [⟨chunkId, "ent_" ++ e, "mentions"⟩] := rfl
      refine ih (addEntityNode chunkId st e) (by rw [hnodes]; exact h1) ?_
        (by rw [hnodes]; exact h3) (by rw [hnodes]; exact h4) (by rw [hnodes]; exact h5)
      intro l hl
      rw [hnodes]
      rw [hlinks] at hl
      rcases List.mem_append.mp hl with hl | hl
      · exact h2 l hl
      · rcases List.mem_singleton.mp hl with rfl
        exact ⟨h3, find?_isSome_mem hfound⟩
    · -- fresh entity id: the entity node and the link are added
      have hnodes : (addEntityNode chunkId st e).1 =
          st.1 ++ [⟨"ent_" ++ e, NodeType.entity, e, 5, none⟩] := by
        show (if (st.1.find? (fun n => n.id == ("ent_" ++ e))).isSome then st.1
              else st.1 ++ [⟨"ent_" ++ e, NodeType.entity, e, 5, none⟩]) = _
        rw [if_neg hfound]
      have hlinks : (addEntityNode chunkId st e).2 =
          st.2 ++ [⟨chunkId, "ent_" ++ e, "mentions"⟩] := rfl
      have hfresh : ("ent_" ++ e) ∉ st.1.map (fun n => n.id) := find?_none_not_mem hfound
      have hids : (addEntityNode chunkId st e).1.map (fun n => n.id) =
          st.1.map (fun n => n.id) ++ ["ent_" ++ e] := by
        rw [hnodes, List.map_append]
        rfl
      refine ih (addEntityNode chunkId st e) ?_ ?_ ?_ ?_ ?_
      · rw [hids, List.nodup_append]
        refine ⟨h1, List.nodup_singleton _, ?_⟩
        intro a ha hb
        rcases List.mem_singleton.mp hb with rfl
        exact hfresh ha
      · intro l hl
        rw [hids]
        rw [hlinks] at hl
        rcases List.mem_append.mp hl with hl | hl
        · rcases h2 l hl with ⟨hsrc, htgt⟩
          exact ⟨List.mem_append_left _ hsrc, List.mem_append_left _ htgt⟩
        · rcases List.mem_singleton.mp hl with rfl
          exact ⟨List.mem_append_left _ h3, List.mem_append_right _ (by simp)⟩
      · rw [hids]
        exact List.mem_append_left _ h3
      · intro d hd
        rw [hids]
        exact List.mem_append_left _ (h4 d hd)
      · intro cid hcid
        rw [hids]
        intro hmem
        rcases List.mem_append.mp hmem with hmem | hmem
        · exact h5 cid hcid hmem
        · exact hfut cid hcid e (List.mem_singleton.mp hmem)

/-- Invariant of the chunk loop (src lines 243-265). -/
theorem addChunk_foldl_inv (documents : List Document) :
    ∀ (cs : List TextChunk) (st : List GraphNode × List GraphLink),
    (cs.map (fun c => c.id)).Nodup →
    (∀ c ∈ cs, c.docId ∈ documents.map (fun d => d.id)) →
    (∀ c ∈ cs, ∀ e : String, c.id ≠ "ent_" ++ e) →
    (st.1.map (fun n => n.id)).Nodup →
    (∀ l ∈ st.2, l.source ∈ st.1.map (fun n => n.id) ∧
      l.target ∈ st.1.map (fun n => n.id)) →
    (∀ d ∈ documents, d.id ∈ st.1.map (fun n => n.id)) →
    (∀ c ∈ cs, c.id ∉ st.1.map (fun n => n.id)) →
    ((cs.foldl addChunkToGraph st).1.map (fun n => n.id)).Nodup ∧
    ∀ l ∈ (cs.foldl addChunkToGraph st).2,
      l.source ∈ (cs.foldl addChunkToGraph st).1.map (fun n => n.id) ∧
      l.target ∈ (cs.foldl addChunkToGraph st).1.map (fun n => n.id) := by
  intro cs
  induction cs with
  | nil =>
    intro st _ _ _ h4 h5 _ _
    exact ⟨h4, h5⟩
  | cons c cs ih =>
    intro st hnodup hown hent h4 h5 h6 h7
    rw [List.foldl_cons]
    have hdef : addChunkToGraph st c = (extractEntities c.text).foldl (addEntityNode c.id)
        (st.1 ++ [⟨c.id, NodeType.chunk, "Part", 10, chunkDataOf c⟩],
         st.2 ++ [⟨c.docId, c.id, "contains"⟩]) := rfl
    have hfreshc : c.id ∉ st.1.map (fun n => n.id) := h7 c (List.mem_cons_self c cs)
    have hcnodup : (cs.map (fun c => c.id)).Nodup := (List.nodup_cons.mp hnodup).2
    have hcnotin : c.id ∉ cs.map (fun c => c.id) := (List.nodup_cons.mp hnodup).1
    have hids1 : (st.1 ++ [(⟨c.id, NodeType.chunk, "Part", 10, chunkDataOf c⟩ : GraphNode)]).map
        (fun n => n.id) = st.1.map (fun n => n.id) ++ [c.id] := by
      rw [List.map_append]
      rfl
    have hinner := addEntity_foldl_inv c.id documents (cs.map (fun c => c.id))
      (fun cid hcid e => by
        rcases List.mem_map.mp hcid with ⟨c', hc', rfl⟩
        exact hent c' (List.mem_cons_of_mem c hc') e)
      (extractEntities c.text)
      (st.1 ++ [⟨c.id, NodeType.chunk, "Part", 10, chunkDataOf c⟩],
       st.2 ++ [⟨c.docId, c.id, "contains"⟩])
      (by
        rw [hids1, List.nodup_append]
        refine ⟨h4, List.nodup_singleton _, ?_⟩
        intro a ha hb
        rcases List.mem_singleton.mp hb with rfl
        exact hfreshc ha)
      (by
        intro l hl
        rw [hids1]
        rcases List.mem_append.mp hl with hl | hl
        · rcases h5 l hl with ⟨hsrc, htgt⟩
          exact ⟨List.mem_append_left _ hsrc, List.mem_append_left _ htgt⟩
        · rcases List.mem_singleton.mp hl with rfl
          refine ⟨?_, List.mem_append_right _ (by simp)⟩
          rcases List.mem_map.mp (hown c (List.mem_cons_self c cs)) with ⟨d, hd, hdid⟩
          exact List.mem_append_left _ (hdid ▸ h6 d hd))
      (by
        rw [hids1]
        exact List.mem_append_right _ (by simp))
      (by
        intro d hd
        rw [hids1]
        exact List.mem_append_left _ (h6 d hd))
      (by
        intro cid hcid
        rw [hids1]
        intro hmem
        rcases List.mem_map.mp hcid with ⟨c', hc', rfl⟩
        rcases List.mem_append.mp hmem with hmem | hmem
        · exact h7 c' (List.mem_cons_of_mem c hc') hmem
        · exact hcnotin (List.mem_singleton.mp hmem ▸ List.mem_map.mpr ⟨c', hc', rfl⟩))
    rw [hdef]
    obtain ⟨k1, k2, _, k4, k5⟩ := hinner
    exact ih _ hcnodup (fun c' hc' => hown c' (List.mem_cons_of_mem c hc'))
      (fun c' hc' e => hent c' (List.mem_cons_of_mem c hc') e) k1 k2 k4
      (fun c' hc' => k5 c'.id (List.mem_map.mpr ⟨c', hc', rfl⟩))

/-- Claim C6 (amended): when document ids are pairwise distinct, chunk ids are
pairwise distinct, every chunk's `docId` names an existing document, no chunk
id equals a document id, and no chunk id is of the entity-node form
`"ent_" ++ term`, the rebuilt full-corpus graph has pairwise-distinct node
ids and every link's source and target are ids of nodes of the same graph. -/
theorem rebuildGraph_node_unique_links_valid (documents : List Document)
    (chunks : List TextChunk)
    (hdoc : (documents.map (fun d => d.id)).Nodup)
    (hchunk : (chunks.map (fun c => c.id)).Nodup)
    (hown : ∀ c ∈ chunks, c.docId ∈ documents.map (fun d => d.id))
    (hdisj : ∀ c ∈ chunks, c.id ∉ documents.map (fun d => d.id))
    (hent : ∀ c ∈ chunks, ∀ e : String, c.id ≠ "ent_" ++ e) :
    ((rebuildGraphFromChunks documents chunks).nodes.map (fun n => n.id)).Nodup ∧
    ∀ l ∈ (rebuildGraphFromChunks documents chunks).links,
      l.source ∈ (rebuildGraphFromChunks documents chunks).nodes.map (fun n => n.id) ∧
      l.target ∈ (rebuildGraphFromChunks documents chunks).nodes.map (fun n => n.id) := by
  have hids : ((documents.map (fun d =>
      ({ id := d.id, type := NodeType.doc, label := d.title, val := 20, data := none } :
        GraphNode))).map (fun n => n.id)) = documents.map (fun d => d.id) := by
    rw [List.map_map]
    rfl
  have h := addChunk_foldl_inv documents chunks
    (documents.map (fun d => ⟨d.id, NodeType.doc, d.title, 20, none⟩), [])
    hchunk hown hent
    (by rw [hids]; exact hdoc)
    (by intro l hl; exact absurd hl (List.not_mem_nil l))
    (by
      intro d hd
      rw [hids]
      exact List.mem_map.mpr ⟨d, hd, rfl⟩)
    (by
      intro c hc
      rw [hids]
      exact hdisj c hc)
  exact h

/-- Claim C6 counterexample: with a document of id `d` and a chunk of id `d`
whose `docId` is `x`, the claim's hypotheses (distinct document ids, distinct
chunk ids) hold, yet the graph has two nodes with id `d` and its `contains`
link's source `x` is no node's id. -/
theorem rebuildGraph_invariants_cex :
    ((docsCex.map (fun d => d.id)).Nodup ∧ (chunksCex.map (fun c => c.id)).Nodup) ∧
    ¬ (((rebuildGraphFromChunks docsCex chunksCex).nodes.map (fun n => n.id)).Nodup ∧
       ∀ l ∈ (rebuildGraphFromChunks docsCex chunksCex).links,
         l.source ∈ (rebuildGraphFromChunks docsCex chunksCex).nodes.map (fun n => n.id) ∧
         l.target ∈ (rebuildGraphFromChunks docsCex chunksCex).nodes.map (fun n => n.id)) := by
  decide

/-- Witness for claim C6 on one document owning one chunk. -/
theorem rebuildGraph_node_unique_links_valid_witness :
    ((rebuildGraphFromChunks docsCex chunksOk).nodes.map (fun n => n.id)).Nodup ∧
    ∀ l ∈ (rebuildGraphFromChunks docsCex chunksOk).links,
      l.source ∈ (rebuildGraphFromChunks docsCex chunksOk).nodes.map (fun n => n.id) ∧
      l.target ∈ (rebuildGraphFromChunks docsCex chunksOk).nodes.map (fun n => n.id) :=
  rebuildGraph_node_unique_links_valid docsCex chunksOk (by decide) (by decide) (by decide)
    (by decide)
    (by
      intro c hc e he
      rcases List.mem_singleton.mp hc with rfl
      have hlen := congrArg String.length he
      rw [String.length_append] at hlen
      have h1 : ("c1" : String).length = 2 := rfl
      have h2 : ("ent_" : String).length = 4 := rfl
      rw [h1, h2] at hlen
      omega)

end Nexus
